import Mathlib

/-!
Verification of the PSC grid engine (`src/simsopt/geo/psc_grid.py`).

The Python class `PSCgrid` is embedded shallowly over the reals:

* pure Python arithmetic (normal-vector parameterization, the `-0` fixup,
  inductance-matrix assembly around `sopp.L_matrix`, current solve, the
  least-squares objective, the geometric setup checks) is translated
  definition by definition;
* the C++ kernels from `simsoptpp` (`L_matrix`, `flux_xyz`/`flux_integration`,
  `A_matrix_simd`, `update_alphas_deltas_xsimd`) are not part of the Python
  source; the Python layer treats them as black boxes, so they appear here as
  abstract fields of a `Kernels` record, and the theorems quantify over them;
* for the one claim that needs the content of `update_alphas_deltas_xsimd`
  (the round trip of the symmetry expansion of normals) a definition modelled
  from the spec is used, clearly marked below.

All machine floats are modelled as real numbers; `np.isclose(x, 0.0)` with
its default tolerances is `|x| ≤ 1e-8`.
-/

open Real Matrix

noncomputable section

/-- `numpy.arctan2 y x` over the reals (signed zeros are not modelled):
the angle of the point `(x, y)` in `(-π, π]`. -/
def atan2 (y x : ℝ) : ℝ :=
  if 0 < x then Real.arctan (y / x)
  else if x < 0 ∧ 0 ≤ y then Real.arctan (y / x) + Real.pi
  else if x < 0 ∧ y < 0 then Real.arctan (y / x) - Real.pi
  else if 0 < y then Real.pi / 2
  else if y < 0 then -(Real.pi / 2)
  else 0

/-- The `-0` fixup applied to each normal-vector component
(`psc_grid.py` lines 1018-1022): a component that is within the
`np.isclose` tolerance `1e-8` of zero and has negative sign is flipped. -/
def fixComp (x : ℝ) : ℝ :=
  if |x| ≤ 1 / 10 ^ 8 ∧ x < 0 then -x else x

/-- The fixup applied to all three components of a normal vector. -/
def fixNormal (v : ℝ × ℝ × ℝ) : ℝ × ℝ × ℝ :=
  (fixComp v.1, fixComp v.2.1, fixComp v.2.2)

/-- The coil normals computed by `PSCgrid.setup_orientations`
(lines 1013-1022): the trigonometric parameterization
`(cos α · sin δ, -sin α, cos α · cos δ)` followed by the `-0` fixup. -/
def coilNormals {n : ℕ} (alphas deltas : Fin n → ℝ) : Fin n → ℝ × ℝ × ℝ :=
  fun i =>
    fixNormal (Real.cos (alphas i) * Real.sin (deltas i),
               -Real.sin (alphas i),
               Real.cos (alphas i) * Real.cos (deltas i))

/-- `kappas[:num_psc]`, the alpha half of the optimization vector
(`least_squares`, line 840). -/
def kappasAlphas {n : ℕ} (kappas : Fin (2 * n) → ℝ) : Fin n → ℝ :=
  fun i => kappas ⟨i, by omega⟩

/-- `kappas[num_psc:]`, the delta half of the optimization vector
(`least_squares`, line 840). -/
def kappasDeltas {n : ℕ} (kappas : Fin (2 * n) → ℝ) : Fin n → ℝ :=
  fun i => kappas ⟨n + i, by omega⟩

/-- Toroidal angle `arctan2(y, x)` of a coil center
(`geo_setup_manual`, line 565). -/
def phiGrid (c : ℝ × ℝ × ℝ) : ℝ := atan2 c.2.1 c.1

/-- Angular half-width `arctan2(R, sqrt(x² + y²))` subtended by a coil of
major radius `R` centered at `c` (`geo_setup_manual`, line 566). -/
def phiDev (R : ℝ) (c : ℝ × ℝ × ℝ) : ℝ :=
  atan2 R (Real.sqrt (c.1 ^ 2 + c.2.1 ^ 2))

/-- The symmetry-plane conflict test of `geo_setup_manual` (lines 563-577)
and `geo_setup_between_toroidal_surfaces` (lines 374-388): some center lies
within its angular half-width of one of the planes `phi = 2πk/nfp`,
`k = 0, …, nfp-1` (`phi0 = 2 * np.pi / nfp * np.arange(nfp)`). -/
def symPlaneConflict (nfp : ℕ) (R : ℝ) {k : ℕ} (centers : Fin k → ℝ × ℝ × ℝ) : Prop :=
  ∃ i : ℕ, i < nfp ∧ ∃ j : Fin k,
    |phiGrid (centers j) - 2 * Real.pi / (nfp : ℝ) * (i : ℝ)| < phiDev R (centers j)

/-- Euclidean distance between two coil centers
(`geo_setup_between_toroidal_surfaces`, line 391). -/
def dist3 (c d : ℝ × ℝ × ℝ) : ℝ :=
  Real.sqrt ((c.1 - d.1) ^ 2 + (c.2.1 - d.2.1) ^ 2 + (c.2.2 - d.2.2) ^ 2)

/-- The pairwise-overlap test of `geo_setup_between_toroidal_surfaces`
(lines 389-396): some pair of distinct centers is closer than `2R`. -/
def pairTooClose (R : ℝ) {k : ℕ} (centers : Fin k → ℝ × ℝ × ℝ) : Prop :=
  ∃ i j : Fin k, i < j ∧ dist3 (centers i) (centers j) < 2 * R

/-- The geometric `ValueError` conditions of `geo_setup_manual`
(lines 563-577): only the symmetry-plane test is performed; the method has
no pairwise-distance check (the class docstring leaves non-intersection of
manually placed coils to the user). The `Bn_plasma` shape check
(line 558) concerns the field array, not the geometry, and is not part of
this predicate. -/
def manualSetupRaisesGeo (nfp : ℕ) (R : ℝ) {k : ℕ} (centers : Fin k → ℝ × ℝ × ℝ) : Prop :=
  symPlaneConflict nfp R centers

/-- The geometric `ValueError` conditions of
`geo_setup_between_toroidal_surfaces` (lines 374-396): the symmetry-plane
test followed by the pairwise `2R` distance test. -/
def gridSetupRaisesGeo (nfp : ℕ) (R : ℝ) {k : ℕ} (centers : Fin k → ℝ × ℝ × ℝ) : Prop :=
  symPlaneConflict nfp R centers ∨ pairTooClose R centers

/-- Coil major radius chosen by `PSCgrid._setup_uniform_grid`
(lines 73-78) from the minimal grid spacing `Nmin` and the
plasma offset `poff`. -/
def grid_R (nfp : ℕ) (Nmin poff : ℝ) : ℝ :=
  if nfp = 2 then Nmin / (5 / 2)
  else if nfp = 3 then min (Nmin / 2) (poff / 3)
  else poff / (5 / 2)

/-- Coil minor radius set by `PSCgrid._setup_uniform_grid` (line 79):
always `R / 100`. -/
def grid_a (nfp : ℕ) (Nmin poff : ℝ) : ℝ := grid_R nfp Nmin poff / 100

/-- Coil minor radius set by `PSCgrid.geo_setup_manual` (line 504):
`kwargs.pop("a", R / 100.0)` — the caller-supplied keyword, defaulting to
`R / 100` only when absent. -/
def manual_a (R : ℝ) (aKw : Option ℝ) : ℝ := aKw.getD (R / 100)

/-- `stellsym + 1`: the number of entries of `stell_list`. -/
def stellFactor (ss : Bool) : ℕ := if ss then 2 else 1

/-- `symmetry = nfp * (stellsym + 1)`, the number of symmetry replicas
(line 225). -/
def symmetryOrder (nfp : ℕ) (ss : Bool) : ℕ := nfp * stellFactor ss

/-- Field-period index of replica `q` in the loop
`for fp in range(nfp): for stell in stell_list:` of `setup_full_grid`. -/
def replicaFP (ss : Bool) (q : ℕ) : ℕ := q / stellFactor ss

/-- Stellarator sign of replica `q` in the same loop:
`stell_list = [1, -1]` when `stellsym` else `[1]`. -/
def replicaSign (ss : Bool) (q : ℕ) : ℝ :=
  if ss ∧ q % 2 = 1 then -1 else 1

/-- One expanded coil center, from `PSCgrid.setup_full_grid`
(lines 1076-1083): flip the `y`, `z` components by the stellarator sign and
rotate by `phi0 = 2π·fp/nfp` about the toroidal axis. -/
def expandedCenter (nfp : ℕ) (ss : Bool) (c : ℝ × ℝ × ℝ) (q : ℕ) : ℝ × ℝ × ℝ :=
  (c.1 * Real.cos (2 * Real.pi / (nfp : ℝ) * (replicaFP ss q : ℝ))
     - c.2.1 * Real.sin (2 * Real.pi / (nfp : ℝ) * (replicaFP ss q : ℝ)) * replicaSign ss q,
   c.1 * Real.sin (2 * Real.pi / (nfp : ℝ) * (replicaFP ss q : ℝ))
     + c.2.1 * Real.cos (2 * Real.pi / (nfp : ℝ) * (replicaFP ss q : ℝ)) * replicaSign ss q,
   c.2.2 * replicaSign ss q)

/-- Modelled from the spec: one expanded coil normal.  The C++ kernel
`sopp.update_alphas_deltas_xsimd` called by `PSCgrid.update_alphas_deltas`
is not under `src/`; spec §4.2(b) states that expanded normals are
"computed analogously" to the expanded centers, i.e. by the same
rotation by `phi0 = 2π·fp/nfp` combined with the stellarator sign flip. -/
def expandedNormal (nfp : ℕ) (ss : Bool) (v : ℝ × ℝ × ℝ) (q : ℕ) : ℝ × ℝ × ℝ :=
  (v.1 * Real.cos (2 * Real.pi / (nfp : ℝ) * (replicaFP ss q : ℝ))
     - v.2.1 * Real.sin (2 * Real.pi / (nfp : ℝ) * (replicaFP ss q : ℝ)) * replicaSign ss q,
   v.1 * Real.sin (2 * Real.pi / (nfp : ℝ) * (replicaFP ss q : ℝ))
     + v.2.1 * Real.cos (2 * Real.pi / (nfp : ℝ) * (replicaFP ss q : ℝ)) * replicaSign ss q,
   v.2.2 * replicaSign ss q)

/-- `grid_xyz_all`, the symmetry-expanded centers laid out in blocks of
`num_psc` (`setup_full_grid`, lines 1073-1085): entry `j` belongs to
replica `j / n` and fundamental coil `j % n`. -/
def gridXYZall (nfp : ℕ) (ss : Bool) {n : ℕ} (xyz : Fin n → ℝ × ℝ × ℝ)
    (j : Fin (symmetryOrder nfp ss * n)) : ℝ × ℝ × ℝ :=
  expandedCenter nfp ss
    (xyz ⟨(j : ℕ) % n, Nat.mod_lt _ (by
      rcases Nat.eq_zero_or_pos n with hn | hn
      · exact absurd j.isLt (by simp [hn])
      · exact hn)⟩)
    ((j : ℕ) / n)

/-- Modelled from the spec: `coil_normals_all`, the symmetry-expanded
normals in the same block layout, as produced by
`sopp.update_alphas_deltas_xsimd` (not under `src/`; spec §4.2(b)). -/
def coilNormalsAll (nfp : ℕ) (ss : Bool) {n : ℕ} (nrm : Fin n → ℝ × ℝ × ℝ)
    (j : Fin (symmetryOrder nfp ss * n)) : ℝ × ℝ × ℝ :=
  expandedNormal nfp ss
    (nrm ⟨(j : ℕ) % n, Nat.mod_lt _ (by
      rcases Nat.eq_zero_or_pos n with hn | hn
      · exact absurd j.isLt (by simp [hn])
      · exact hn)⟩)
    ((j : ℕ) / n)

/-- `self.fac = 1e-7`, the fixed conditioning constant set in
`PSCgrid.__init__` (line 31). -/
def facPSC : ℝ := 1 / 10 ^ 7

/-- Output of the symmetry expander `sopp.update_alphas_deltas_xsimd` as
consumed by the Python layer: expanded normals and the recovered expanded
angles.  (The four derivative-propagation factors are also returned but are
used only by the gradient path, which no claim here touches.) -/
structure ExpOut (m : ℕ) where
  coil_normals_all : Fin m → ℝ × ℝ × ℝ
  alphas_total : Fin m → ℝ
  deltas_total : Fin m → ℝ

/-- The C++ kernels of `simsoptpp` used by the evaluation path, abstracted:
the Python source under `src/` calls them as black boxes, so the theorems
below hold for every value of these fields.  Static data (grid positions,
quadrature points, the TF field) is folded into the functions. -/
structure Kernels (n m p : ℕ) where
  expander : (Fin n → ℝ × ℝ × ℝ) → ExpOut m
  Lmat : (Fin m → ℝ) → (Fin m → ℝ) → Matrix (Fin m) (Fin m) ℝ
  fluxInt : ExpOut m → Fin m → ℝ
  AmatBlock : ℕ → (Fin m → ℝ) → (Fin m → ℝ) → Matrix (Fin p) (Fin n) ℝ

/-- The static per-run state of a `PSCgrid` with `n` fundamental coils,
`m = n · symmetry` expanded coils and `p` plasma quadrature points: fixed at
construction, never mutated by the evaluation path.  `normalization` is
stored as its two factors `B_axis² · area` (lines 324-325 and 638-639). -/
structure PSCstate (n m p : ℕ) where
  R : ℝ
  a : ℝ
  B_axis : ℝ
  area : ℝ
  grid_normalization : Fin p → ℝ
  b_opt : Fin p → ℝ
  nfp : ℕ
  stellsym : Bool
  hnm : n ≤ m

/-- `alphas_total` after an orientation update: the expander applied to the
freshly computed coil normals (`setup_orientations`, lines 1013-1025). -/
def alphasTotal {n m p : ℕ} (K : Kernels n m p) (al de : Fin n → ℝ) : Fin m → ℝ :=
  (K.expander (coilNormals al de)).alphas_total

/-- `deltas_total` after an orientation update. -/
def deltasTotal {n m p : ℕ} (K : Kernels n m p) (al de : Fin n → ℝ) : Fin m → ℝ :=
  (K.expander (coilNormals al de)).deltas_total

/-- The raw mutual-inductance matrix `sopp.L_matrix(...)` evaluated at the
updated expanded angles (`setup_orientations`, lines 1028-1034). -/
def Lraw {n m p : ℕ} (K : Kernels n m p) (al de : Fin n → ℝ) : Matrix (Fin m) (Fin m) ℝ :=
  K.Lmat (alphasTotal K al de) (deltasTotal K al de)

/-- The assembled inductance matrix of `PSCgrid.setup_orientations`
(lines 1028-1041): symmetrize `L_total = L_total + L_total.T`, overwrite the
diagonal with the analytic self-inductance
`(log(8R/a) - 2) · 4π`, then rescale everything by `R`. -/
def setup_L {n m p : ℕ} (st : PSCstate n m p) (K : Kernels n m p)
    (al de : Fin n → ℝ) : Matrix (Fin m) (Fin m) ℝ :=
  Matrix.of fun i j =>
    (if i = j then (Real.log (8 * st.R / st.a) - 2) * 4 * Real.pi
     else (Lraw K al de + (Lraw K al de)ᵀ) i j) * st.R

/-- `psi_total` from `PSCgrid.update_psi` (lines 1043-1064): the flux
integration kernel applied to the expander output. -/
def psiTotal {n m p : ℕ} (_st : PSCstate n m p) (K : Kernels n m p)
    (al de : Fin n → ℝ) : Fin m → ℝ :=
  K.fluxInt (K.expander (coilNormals al de))

/-- `I_all = -L⁻¹ @ psi_total / fac` from
`PSCgrid.setup_currents_and_fields` (lines 687-688). -/
def I_all {n m p : ℕ} (st : PSCstate n m p) (K : Kernels n m p)
    (al de : Fin n → ℝ) : Fin m → ℝ :=
  fun i => -((setup_L st K al de)⁻¹.mulVec (psiTotal st K al de)) i / facPSC

/-- `I = I_all[:num_psc]`, the fundamental-domain currents (line 689). -/
def I_fund {n m p : ℕ} (st : PSCstate n m p) (K : Kernels n m p)
    (al de : Fin n → ℝ) : Fin n → ℝ :=
  fun i => I_all st K al de (Fin.castLE st.hnm i)

/-- The coupling matrix of `PSCgrid.setup_A_matrix` (lines 693-710): the sum
of one `sopp.A_matrix_simd` block per symmetry replica, doubled. -/
def Amatrix {n m p : ℕ} (st : PSCstate n m p) (K : Kernels n m p)
    (al de : Fin n → ℝ) : Matrix (Fin p) (Fin n) ℝ :=
  (2 : ℝ) • (∑ q ∈ Finset.range (symmetryOrder st.nfp st.stellsym),
    K.AmatBlock q (alphasTotal K al de) (deltasTotal K al de))

/-- `Bn_PSC = A_matrix @ I` (line 691). -/
def Bn_PSC {n m p : ℕ} (st : PSCstate n m p) (K : Kernels n m p)
    (al de : Fin n → ℝ) : Fin p → ℝ :=
  (Amatrix st K al de).mulVec (I_fund st K al de)

/-- `fac2_norm = fac² / (B_axis² · area)` (lines 324-325, 638-639). -/
def fac2_norm {n m p : ℕ} (st : PSCstate n m p) : ℝ :=
  facPSC ^ 2 / (st.B_axis ^ 2 * st.area)

/-- The residual `Ax_b = (Bn_PSC + b_opt) * grid_normalization` of
`PSCgrid.least_squares` (line 843), with the orientation state recomputed
from the two halves of `kappas`. -/
def Ax_b {n m p : ℕ} (st : PSCstate n m p) (K : Kernels n m p)
    (kappas : Fin (2 * n) → ℝ) : Fin p → ℝ :=
  fun j =>
    (Bn_PSC st K (kappasAlphas kappas) (kappasDeltas kappas) j + st.b_opt j)
      * st.grid_normalization j

/-- `PSCgrid.least_squares` (lines 819-846): split `kappas`, recompute the
orientation-dependent state, and return
`0.5 * Ax_b.T @ Ax_b * fac2_norm`. -/
def least_squares {n m p : ℕ} (st : PSCstate n m p) (K : Kernels n m p)
    (kappas : Fin (2 * n) → ℝ) : ℝ :=
  (1 / 2) * (∑ j, Ax_b st K kappas j * Ax_b st K kappas j) * fac2_norm st

/-- A trivial expander output on a single expanded coil, for witnesses. -/
def oneExp : ExpOut 1 :=
  ⟨fun _ => (0, 0, 1), fun _ => 0, fun _ => 0⟩

/-- Trivial kernels on a 1-coil, 1-plasma-point configuration, for
witnesses: every C++ kernel returns zeros. -/
def oneKernels : Kernels 1 1 1 :=
  ⟨fun _ => oneExp, fun _ _ => 0, fun _ _ => 0, fun _ _ _ => 0⟩

/-- A concrete static state with `R = 1`, `a = 8` (so that the
self-inductance diagonal is `-8π ≠ 0` and `L` is invertible). -/
def stC2 : PSCstate 1 1 1 :=
  ⟨1, 8, 1, 1, fun _ => 1, fun _ => 1, 1, false, le_refl 1⟩

/-- A concrete static state with `R = 1`, `a = R/100`. -/
def stC4 : PSCstate 1 1 1 :=
  ⟨1, 1 / 100, 1, 1, fun _ => 1, fun _ => 1, 1, false, le_refl 1⟩

/-- A concrete static state with unit normalization data. -/
def stC10 : PSCstate 1 1 1 :=
  ⟨1, 1 / 100, 1, 1, fun _ => 1, fun _ => 1, 1, false, le_refl 1⟩

/-- Two explicit centers at distance `1/10`, both at toroidal angle `π/2`. -/
def c5centers : Fin 2 → ℝ × ℝ × ℝ :=
  fun j => ((0 : ℝ), 1, if j = 0 then 0 else 1 / 10)

/-- One explicit center at toroidal angle exactly `π/2 = π/nfp` for
`nfp = 2`. -/
def c6centers : Fin 1 → ℝ × ℝ × ℝ := fun _ => ((0 : ℝ), 1, 0)

/-- One explicit center at toroidal angle `0`, on the checked plane
`phi = 2π·0/nfp`. -/
def c6planeCenter : Fin 1 → ℝ × ℝ × ℝ := fun _ => ((1 : ℝ), 0, 0)

end

/-- Helper: a dot product of a vector with itself is a sum of squares. -/
theorem sum_mul_self_eq_sum_sq {p : ℕ} (x : Fin p → ℝ) :
    ∑ j, x j * x j = ∑ j, (x j) ^ 2 := by
  simp [pow_two]

/-- Claim C1: `least_squares` splits `kappas` into `alphas = kappas[:num_psc]`
and `deltas = kappas[num_psc:]`, recomputes the orientation-dependent state
from those angles, and returns
`0.5 · fac2_norm · ‖(A_matrix @ I + b_opt) * grid_normalization‖²`,
for every static state, every value of the C++ kernels and every `kappas`. -/
theorem C1_least_squares_formula {n m p : ℕ} (st : PSCstate n m p)
    (K : Kernels n m p) (kappas : Fin (2 * n) → ℝ) :
    least_squares st K kappas =
      (1 / 2) * fac2_norm st *
        ∑ j, (((Amatrix st K (kappasAlphas kappas) (kappasDeltas kappas)).mulVec
                  (I_fund st K (kappasAlphas kappas) (kappasDeltas kappas)) j
                + st.b_opt j) * st.grid_normalization j) ^ 2 := by
  rw [least_squares, sum_mul_self_eq_sum_sq]
  simp only [Ax_b, Bn_PSC]
  ring

/-- Claim C3: for every orientation (and every value of the raw C++
inductance kernel), the assembled inductance matrix equals its transpose. -/
theorem C3_L_symmetric {n m p : ℕ} (st : PSCstate n m p) (K : Kernels n m p)
    (al de : Fin n → ℝ) :
    (setup_L st K al de)ᵀ = setup_L st K al de := by
  ext i j
  simp only [setup_L, Matrix.transpose_apply, Matrix.of_apply, Matrix.add_apply]
  by_cases h : i = j
  · subst h; simp
  · rw [if_neg h, if_neg fun hh => h hh.symm]
    ring

/-- Claim C4, counterexample: with `R = 1`, `a = 1/100`, the diagonal entry
of the assembled inductance matrix is `(log(8R/a) - 2)·4π·R`, which differs
from the claimed `log(8R/a - 2)·4π·R`. -/
theorem C4_counterexample :
    setup_L stC4 oneKernels (fun _ => 0) (fun _ => 0) 0 0 ≠
      Real.log (8 * stC4.R / stC4.a - 2) * 4 * Real.pi * stC4.R := by
  have hR : stC4.R = 1 := rfl
  have ha : stC4.a = 1 / 100 := rfl
  have h800 : 8 * stC4.R / stC4.a = 800 := by rw [hR, ha]; norm_num
  have h798 : (800 : ℝ) - 2 = 798 := by norm_num
  intro h
  rw [setup_L, Matrix.of_apply, if_pos rfl, h800, h798, hR, mul_one, mul_one] at h
  have h4 := mul_right_cancel₀ Real.pi_ne_zero h
  have h5 := mul_right_cancel₀ (by norm_num : (4 : ℝ) ≠ 0) h4
  have hlog : Real.log 800 - Real.log 798 = Real.log (800 / 798) :=
    (Real.log_div (by norm_num) (by norm_num)).symm
  have hle : Real.log ((800 : ℝ) / 798) ≤ 800 / 798 - 1 :=
    Real.log_le_sub_one_of_pos (by norm_num)
  have hsmall : (800 : ℝ) / 798 - 1 < 2 := by norm_num
  have : Real.log 800 - Real.log 798 = 2 := by linarith
  rw [hlog] at this
  linarith

/-- Claim C4, amended: after every call to `setup_orientations`, every
diagonal entry of the inductance matrix equals
`(log(8R/a) - 2)·4π·R` (the subtraction of 2 is outside the logarithm). -/
theorem C4_diagonal_self_inductance {n m p : ℕ} (st : PSCstate n m p)
    (K : Kernels n m p) (al de : Fin n → ℝ) (i : Fin m) :
    setup_L st K al de i i = (Real.log (8 * st.R / st.a) - 2) * 4 * Real.pi * st.R := by
  simp [setup_L]

/-- Claim C9, counterexample: `geo_setup_manual` accepts a minor radius
through the `a` keyword; passing `a = 1` with `R = 1` yields `a = 1 ≠ R/100`. -/
theorem C9_counterexample : manual_a 1 (Option.some 1) ≠ 1 / 100 := by
  rw [manual_a, Option.getD_some]
  norm_num

/-- Claim C9, amended: grid-mode construction always sets `a = R/100`;
explicit-points construction defaults `a` to `R/100` when the `a` keyword is
absent, and uses the caller-supplied value verbatim when it is present. -/
theorem C9_minor_radius (nfp : ℕ) (Nmin poff R x : ℝ) :
    grid_a nfp Nmin poff = grid_R nfp Nmin poff / 100 ∧
      manual_a R Option.none = R / 100 ∧
      manual_a R (Option.some x) = x := by
  refine ⟨rfl, rfl, ?_⟩
  rw [manual_a, Option.getD_some]

/-- Claim C2: after an orientation update, the currents solve the full
expanded linear system `L · (fac · I_all) = -psi_total` (i.e.
`I_all = -L⁻¹ · psi_total / fac`), and the fundamental-domain current vector
is the restriction `I = I_all[:num_psc]`. -/
theorem C2_current_solve {n m p : ℕ} (st : PSCstate n m p) (K : Kernels n m p)
    (al de : Fin n → ℝ) (hdet : IsUnit (setup_L st K al de).det) :
    (setup_L st K al de).mulVec (facPSC • I_all st K al de) =
        -(psiTotal st K al de) ∧
      ∀ i : Fin n, I_fund st K al de i = I_all st K al de (Fin.castLE st.hnm i) := by
  refine ⟨?_, fun i => rfl⟩
  have hfac : facPSC ≠ 0 := by rw [facPSC]; norm_num
  have hv : facPSC • I_all st K al de =
      -((setup_L st K al de)⁻¹.mulVec (psiTotal st K al de)) := by
    funext i
    simp only [Pi.smul_apply, smul_eq_mul, I_all, Pi.neg_apply]
    field_simp
    ring
  rw [hv, Matrix.mulVec_neg, Matrix.mulVec_mulVec,
    Matrix.mul_nonsing_inv _ hdet, Matrix.one_mulVec]

/-- Claim C2, witness: a concrete 1-coil configuration with `R = 1`, `a = 8`
makes the assembled inductance matrix the nonzero scalar `-8π`, so the
hypothesis holds and the solve property follows. -/
theorem C2_current_solve_witness :
    (setup_L stC2 oneKernels (fun _ => 0) (fun _ => 0)).mulVec
        (facPSC • I_all stC2 oneKernels (fun _ => 0) (fun _ => 0)) =
        -(psiTotal stC2 oneKernels (fun _ => 0) (fun _ => 0)) ∧
      ∀ i : Fin 1, I_fund stC2 oneKernels (fun _ => 0) (fun _ => 0) i =
        I_all stC2 oneKernels (fun _ => 0) (fun _ => 0) (Fin.castLE stC2.hnm i) :=
  C2_current_solve stC2 oneKernels (fun _ => 0) (fun _ => 0) (by
    rw [Matrix.det_fin_one, setup_L, Matrix.of_apply, if_pos rfl]
    have h1 : 8 * stC2.R / stC2.a = 1 := by
      rw [show stC2.R = 1 from rfl, show stC2.a = 8 from rfl]; norm_num
    rw [h1, Real.log_one, show stC2.R = 1 from rfl]
    refine isUnit_iff_ne_zero.mpr ?_
    have hpi := Real.pi_pos
    nlinarith)

/-- Claim C10: the value returned by `least_squares` is
`0.5 · (v·v) · fac2_norm` with `fac2_norm = fac²/(B_axis²·area) > 0`, hence
non-negative for every `kappas`, for every static state with a nonzero
on-axis field and positive plasma area and every value of the kernels. -/
theorem C10_loss_nonneg {n m p : ℕ} (st : PSCstate n m p) (K : Kernels n m p)
    (hB : st.B_axis ≠ 0) (hA : 0 < st.area) :
    0 < fac2_norm st ∧ ∀ kappas : Fin (2 * n) → ℝ, 0 ≤ least_squares st K kappas := by
  have hB2 : 0 < st.B_axis ^ 2 :=
    lt_of_le_of_ne (sq_nonneg _) (Ne.symm (pow_ne_zero 2 hB))
  have h2 : 0 < fac2_norm st := by
    rw [fac2_norm]
    exact div_pos (by rw [facPSC]; norm_num) (mul_pos hB2 hA)
  refine ⟨h2, fun kappas => ?_⟩
  have hS : 0 ≤ ∑ j, Ax_b st K kappas j * Ax_b st K kappas j :=
    Finset.sum_nonneg fun j _ => mul_self_nonneg _
  rw [least_squares]
  exact mul_nonneg (mul_nonneg (by norm_num) hS) h2.le

/-- Claim C10, witness: the concrete unit-normalization state satisfies both
hypotheses, so its loss is non-negative at every `kappas`. -/
theorem C10_loss_nonneg_witness :
    0 < fac2_norm stC10 ∧
      ∀ kappas : Fin (2 * 1) → ℝ, 0 ≤ least_squares stC10 oneKernels kappas :=
  C10_loss_nonneg stC10 oneKernels
    (by rw [show stC10.B_axis = 1 from rfl]; norm_num)
    (by rw [show stC10.area = 1 from rfl]; norm_num)

/-- Helper: `atan2` on the right half-plane is `arctan (y/x)`. -/
theorem atan2_pos_x (y x : ℝ) (hx : 0 < x) : atan2 y x = Real.arctan (y / x) := by
  rw [atan2, if_pos hx]

/-- Helper: `atan2` on the positive `y`-axis is `π/2`. -/
theorem atan2_zero_x_pos_y (y : ℝ) (hy : 0 < y) : atan2 y 0 = Real.pi / 2 := by
  rw [atan2, if_neg (lt_irrefl 0), if_neg, if_neg, if_pos hy]
  · rintro ⟨h0, -⟩; exact lt_irrefl 0 h0
  · rintro ⟨h0, -⟩; exact lt_irrefl 0 h0

/-- Claim C7, counterexample: at `alpha = 1e-9`, `delta = 0` the formula's
second component `-sin(alpha)` is negative and within `1e-8` of zero, so the
`-0` fixup flips it and the stored normal differs from
`(cos α · sin δ, -sin α, cos α · cos δ)`. -/
theorem C7_counterexample :
    coilNormals (fun _ : Fin 1 => (1 : ℝ) / 10 ^ 9) (fun _ => 0) 0 ≠
      (Real.cos ((1 : ℝ) / 10 ^ 9) * Real.sin 0,
       -Real.sin ((1 : ℝ) / 10 ^ 9),
       Real.cos ((1 : ℝ) / 10 ^ 9) * Real.cos 0) := by
  have he : (0 : ℝ) < 1 / 10 ^ 9 := by norm_num
  have hepi : (1 : ℝ) / 10 ^ 9 < Real.pi := by
    have := Real.pi_gt_three
    linarith
  have hs1 : 0 < Real.sin ((1 : ℝ) / 10 ^ 9) :=
    Real.sin_pos_of_pos_of_lt_pi he hepi
  have hs2 : Real.sin ((1 : ℝ) / 10 ^ 9) < 1 / 10 ^ 9 := Real.sin_lt he
  intro h
  have h2 := congrArg (fun t : ℝ × ℝ × ℝ => t.2.1) h
  simp only [coilNormals, fixNormal] at h2
  rw [fixComp, if_pos ⟨by rw [abs_neg, abs_of_pos hs1]; linarith, by linarith⟩,
    neg_neg] at h2
  linarith

/-- Claim C7, amended: the stored unit normal of coil `i` equals
`(cos α·sin δ, -sin α, cos α·cos δ)` whenever no component of that formula
is both negative and within the `np.isclose` tolerance `1e-8` of zero;
components in that range are flipped to their absolute value by the `-0`
fixup of `setup_orientations`. -/
theorem C7_normals {n : ℕ} (alphas deltas : Fin n → ℝ) (i : Fin n)
    (h1 : ¬(|Real.cos (alphas i) * Real.sin (deltas i)| ≤ 1 / 10 ^ 8 ∧
            Real.cos (alphas i) * Real.sin (deltas i) < 0))
    (h2 : ¬(|-Real.sin (alphas i)| ≤ 1 / 10 ^ 8 ∧ -Real.sin (alphas i) < 0))
    (h3 : ¬(|Real.cos (alphas i) * Real.cos (deltas i)| ≤ 1 / 10 ^ 8 ∧
            Real.cos (alphas i) * Real.cos (deltas i) < 0)) :
    coilNormals alphas deltas i =
      (Real.cos (alphas i) * Real.sin (deltas i),
       -Real.sin (alphas i),
       Real.cos (alphas i) * Real.cos (deltas i)) := by
  simp only [coilNormals, fixNormal, fixComp]
  rw [if_neg h1, if_neg h2, if_neg h3]

/-- Claim C7, witness: at `alpha = delta = 0` no component of the formula is
negative, and the stored normal equals the formula. -/
theorem C7_normals_witness :
    coilNormals (fun _ : Fin 1 => (0 : ℝ)) (fun _ => 0) 0 =
      (Real.cos 0 * Real.sin 0, -Real.sin 0, Real.cos 0 * Real.cos 0) :=
  C7_normals (fun _ => 0) (fun _ => 0) 0
    (by norm_num) (by norm_num) (by norm_num)

/-- Claim C8: for every grid and orientation, entry `j < num_psc` of the
symmetry-expanded centers and of the (spec-modelled) expanded normals equals
the fundamental-domain center and normal `j`: expansion followed by
restriction to the fundamental domain is the identity. -/
theorem C8_roundtrip {n : ℕ} (nfp : ℕ) (ss : Bool) (xyz nrm : Fin n → ℝ × ℝ × ℝ)
    (j : Fin (symmetryOrder nfp ss * n)) (h : (j : ℕ) < n) :
    gridXYZall nfp ss xyz j = xyz ⟨j, h⟩ ∧
      coilNormalsAll nfp ss nrm j = nrm ⟨j, h⟩ := by
  have hmod : (j : ℕ) % n = (j : ℕ) := Nat.mod_eq_of_lt h
  have hdiv : (j : ℕ) / n = 0 := Nat.div_eq_of_lt h
  have hfp : replicaFP ss 0 = 0 := Nat.zero_div _
  have hsign : replicaSign ss 0 = 1 := by
    rw [replicaSign, if_neg]
    rintro ⟨-, hq⟩
    simp at hq
  constructor
  · simp only [gridXYZall, expandedCenter, hmod, hdiv, hfp, hsign, Nat.cast_zero,
      mul_zero, Real.cos_zero, Real.sin_zero, mul_one, one_mul, zero_mul,
      sub_zero, add_zero, zero_add]
  · simp only [coilNormalsAll, expandedNormal, hmod, hdiv, hfp, hsign, Nat.cast_zero,
      mul_zero, Real.cos_zero, Real.sin_zero, mul_one, one_mul, zero_mul,
      sub_zero, add_zero, zero_add]

/-- Index 0 of the expanded grid for `nfp = 2` without stellarator symmetry
over a single fundamental coil. -/
def c8j : Fin (symmetryOrder 2 false * 1) := ⟨0, by decide⟩

/-- Claim C8, witness: a concrete 1-coil grid with `nfp = 2`; its first
expanded center and normal are the fundamental ones. -/
theorem C8_roundtrip_witness :
    (c8j : ℕ) < 1 ∧
      (gridXYZall 2 false (fun _ => ((1 : ℝ), 2, 3)) c8j = (1, 2, 3) ∧
       coilNormalsAll 2 false (fun _ => ((0 : ℝ), 0, 1)) c8j = (0, 0, 1)) :=
  ⟨by decide, C8_roundtrip 2 false _ _ c8j (by decide)⟩

/-- Helper: the two explicit centers of `c5centers` are `1/10 < 2·1` apart. -/
theorem c5_close : dist3 (c5centers 0) (c5centers 1) < 2 * 1 := by
  have hc0 : c5centers 0 = ((0 : ℝ), 1, 0) := by rw [c5centers]; norm_num
  have hc1 : c5centers 1 = ((0 : ℝ), 1, 1 / 10) := by rw [c5centers]; norm_num
  rw [hc0, hc1, dist3]
  rw [show ((0 : ℝ) - 0) ^ 2 + ((1 : ℝ) - 1) ^ 2 + ((0 : ℝ) - 1 / 10) ^ 2
        = (1 / 10) ^ 2 by norm_num]
  rw [Real.sqrt_sq (by norm_num)]
  norm_num

/-- Helper: `c5centers` fails the pairwise `2R` test at `R = 1`. -/
theorem c5_pairTooClose : pairTooClose 1 c5centers :=
  ⟨0, 1, by decide, c5_close⟩

/-- Helper: `c5centers` passes the symmetry-plane test at `nfp = 1`,
`R = 1`: both centers sit at toroidal angle `π/2`, while the only checked
plane is `phi = 0` and the angular half-width `arctan 1 = π/4 < π/2`. -/
theorem c5_noSymConflict : ¬ symPlaneConflict 1 1 c5centers := by
  rintro ⟨i, hi, j, hj⟩
  have hi0 : i = 0 := by omega
  subst hi0
  have hphi : phiGrid (c5centers j) = Real.pi / 2 := atan2_zero_x_pos_y 1 one_pos
  have hdev : phiDev 1 (c5centers j) = Real.arctan 1 := by
    rw [phiDev,
      show ((c5centers j).1 ^ 2 + (c5centers j).2.1 ^ 2 : ℝ) = 1 by
        rw [c5centers]; norm_num,
      Real.sqrt_one, atan2_pos_x _ 1 one_pos, div_one]
  rw [hphi, hdev, Real.arctan_one] at hj
  rw [show (2 * Real.pi / ((1 : ℕ) : ℝ) * ((0 : ℕ) : ℝ)) = 0 by push_cast; ring,
    sub_zero, abs_of_pos (by positivity)] at hj
  linarith [Real.pi_pos]

/-- Claim C5, counterexample: two explicit centers at distance `1/10 < 2R`
(`R = 1`) do not make `geo_setup_manual` raise: the method performs no
pairwise-distance check, only the symmetry-plane check, which passes here. -/
theorem C5_counterexample :
    pairTooClose 1 c5centers ∧ ¬ manualSetupRaisesGeo 1 1 c5centers :=
  ⟨c5_pairTooClose, c5_noSymConflict⟩

/-- Claim C5, amended: two centers closer than `2R` make the grid-mode
constructor `geo_setup_between_toroidal_surfaces` raise; `geo_setup_manual`
raises only on the symmetry-plane check, which is independent of
pairwise distances. -/
theorem C5_grid_rejects {k : ℕ} (nfp : ℕ) (R : ℝ) (centers : Fin k → ℝ × ℝ × ℝ)
    (h : pairTooClose R centers) :
    gridSetupRaisesGeo nfp R centers ∧
      (manualSetupRaisesGeo nfp R centers ↔ symPlaneConflict nfp R centers) :=
  ⟨Or.inr h, Iff.rfl⟩

/-- Claim C5, witness: the concrete close pair of centers triggers the
grid-mode rejection. -/
theorem C5_grid_rejects_witness :
    gridSetupRaisesGeo 1 1 c5centers ∧
      (manualSetupRaisesGeo 1 1 c5centers ↔ symPlaneConflict 1 1 c5centers) :=
  C5_grid_rejects 1 1 c5centers ⟨0, 1, by decide, c5_close⟩

/-- Claim C6, counterexample: for `nfp = 2` a center at toroidal angle
exactly `π/2 = π/nfp` (with `R = 1/2`, center radius 1) does not trigger
the setup `ValueError`: the check only covers the planes `phi = 2πk/nfp`,
and the center is `π/2` away from both while its half-width
`arctan(1/2) < π/2`. -/
theorem C6_counterexample :
    phiGrid (c6centers 0) = Real.pi / 2 ∧
      ¬ manualSetupRaisesGeo 2 (1 / 2) c6centers := by
  have hphi : phiGrid (c6centers 0) = Real.pi / 2 := atan2_zero_x_pos_y 1 one_pos
  refine ⟨hphi, ?_⟩
  rintro ⟨i, hi, j, hj⟩
  have hj0 : j = 0 := Subsingleton.elim _ _
  subst hj0
  have hdev : phiDev (1 / 2) (c6centers 0) = Real.arctan (1 / 2) := by
    rw [phiDev,
      show ((c6centers 0).1 ^ 2 + (c6centers 0).2.1 ^ 2 : ℝ) = 1 by
        rw [c6centers]; norm_num,
      Real.sqrt_one, atan2_pos_x _ 1 one_pos, div_one]
  have harc : Real.arctan (1 / 2) < Real.pi / 2 := Real.arctan_lt_pi_div_two _
  rw [hphi, hdev] at hj
  interval_cases i
  · rw [show (2 * Real.pi / ((2 : ℕ) : ℝ) * ((0 : ℕ) : ℝ)) = 0 by push_cast; ring,
      sub_zero, abs_of_pos (by positivity)] at hj
    linarith
  · rw [show (2 * Real.pi / ((2 : ℕ) : ℝ) * ((1 : ℕ) : ℝ)) = Real.pi by
        push_cast; ring] at hj
    rw [show (Real.pi / 2 - Real.pi) = -(Real.pi / 2) by ring, abs_neg,
      abs_of_pos (by positivity)] at hj
    linarith

/-- Claim C6, amended: the setup check rejects a center lying exactly on one
of the planes `phi = 2πk/nfp`, `k = 0, …, nfp-1` (for positive coil radius
and a center off the `z`-axis); the plane `phi = π/nfp` itself is not
among the checked planes. -/
theorem C6_checked_planes {k : ℕ} (nfp : ℕ) (R : ℝ) (centers : Fin k → ℝ × ℝ × ℝ)
    (j : Fin k) (i : ℕ) (hi : i < nfp)
    (hphi : phiGrid (centers j) = 2 * Real.pi / (nfp : ℝ) * (i : ℝ))
    (hR : 0 < R) (hr : 0 < (centers j).1 ^ 2 + (centers j).2.1 ^ 2) :
    manualSetupRaisesGeo nfp R centers := by
  refine ⟨i, hi, j, ?_⟩
  rw [hphi, sub_self, abs_zero, phiDev]
  have hs : 0 < Real.sqrt ((centers j).1 ^ 2 + (centers j).2.1 ^ 2) :=
    Real.sqrt_pos.mpr hr
  rw [atan2_pos_x _ _ hs, ← Real.arctan_zero]
  exact Real.arctan_strictMono (div_pos hR hs)

/-- Claim C6, witness: a center at toroidal angle `0` (on the checked plane
`phi = 2π·0/nfp`) with `R = 1` triggers the setup rejection. -/
theorem C6_checked_planes_witness : manualSetupRaisesGeo 1 1 c6planeCenter :=
  C6_checked_planes 1 1 c6planeCenter 0 0 (by norm_num)
    (by
      have h1 : phiGrid (c6planeCenter 0) = Real.arctan (0 / 1) :=
        atan2_pos_x 0 1 one_pos
      rw [h1]
      push_cast
      norm_num [Real.arctan_zero])
    (by norm_num)
    (by rw [c6planeCenter]; norm_num)
